import Mathlib

/-!
Verification of the synchronous-wait coordinator of include/block/aio-wait.h
and of scsi_cdb_length from the virtio-scsi qtest.

The AIO_WAIT_WHILE control flow is embedded as a fuel-bounded function that
records an event trace: every evaluation of the condition, every atomic
increment and decrement of num_waiters, every qemu_co_queue_wait on the
wait_queue, every aio_poll (with the polled context and the blocking flag),
every aio_context_release and aio_context_acquire, and the assertion of the
foreign-thread branch.  The environment of a call records the results of
qemu_in_coroutine(), whether ctx is non-NULL, in_aio_context_home_thread(ctx),
and whether qemu_get_current_aio_context() equals qemu_get_aio_context().
The condition is a function from the index of its evaluation to its value.
-/

namespace QemuAioWait

/-- Which AioContext an aio_poll call polls: the ctx argument of
AIO_WAIT_WHILE, or the global context returned by qemu_get_aio_context(). -/
inductive PollTarget where
  | givenCtx : PollTarget
  | globalCtx : PollTarget
deriving DecidableEq, Repr

/-- One observable action of an AIO_WAIT_WHILE execution. -/
inductive Event where
  | condEval (value : Bool) : Event
  | atomicInc : Event
  | atomicDec : Event
  | coQueueWait : Event
  | aioPoll (target : PollTarget) (blocking : Bool) : Event
  | ctxRelease : Event
  | ctxAcquire : Event
  | assertion (ok : Bool) : Event
deriving DecidableEq, Repr

/-- Whether an event is an evaluation of the condition. -/
def Event.isCondEval : Event → Bool
  | .condEval _ => true
  | _ => false

/-- Whether an event is an aio_poll call. -/
def Event.isAioPoll : Event → Bool
  | .aioPoll _ _ => true
  | _ => false

/-- The calling context of an AIO_WAIT_WHILE invocation. -/
structure ExecEnv where
  /-- Result of qemu_in_coroutine(). -/
  inCoroutine : Bool
  /-- Whether the ctx argument is non-NULL. -/
  ctxNonNull : Bool
  /-- Result of in_aio_context_home_thread(ctx), when ctx is non-NULL. -/
  inHomeThread : Bool
  /-- Whether qemu_get_current_aio_context() = qemu_get_aio_context(). -/
  currentCtxIsGlobal : Bool
deriving DecidableEq, Repr

/-- Result of a complete AIO_WAIT_WHILE execution: the returned waited_ value
together with the trace, or an assertion failure with the trace up to it. -/
inductive Outcome where
  | ok (waited : Bool) (trace : List Event) : Outcome
  | assertFailed (trace : List Event) : Outcome
deriving DecidableEq, Repr

/-- The coroutine-path loop of AIO_WAIT_WHILE:
while (cond) \x7b atomic_inc(num_waiters); qemu_co_queue_wait(wait_queue);
atomic_dec(num_waiters); \x7d.  The fuel bounds the number of iterations;
none means the loop did not exit within the fuel. -/
def coroutineLoop (cond : Nat → Bool) : Nat → Nat → Option (List Event)
  | k, 0 => if cond k then none else some [Event.condEval false]
  | k, fuel + 1 =>
    if cond k then
      (coroutineLoop cond (k + 1) fuel).map fun rest =>
        Event.condEval true :: Event.atomicInc :: Event.coQueueWait ::
          Event.atomicDec :: rest
    else some [Event.condEval false]

/-- The home-thread-path loop of AIO_WAIT_WHILE:
while (cond) \x7b aio_poll(ctx, true); waited = true; \x7d.
Returns the trace together with the final waited flag. -/
def homeLoop (cond : Nat → Bool) : Nat → Nat → Option (List Event × Bool)
  | k, 0 => if cond k then none else some ([Event.condEval false], false)
  | k, fuel + 1 =>
    if cond k then
      (homeLoop cond (k + 1) fuel).map fun p =>
        (Event.condEval true :: Event.aioPoll PollTarget.givenCtx true :: p.1,
          true)
    else some ([Event.condEval false], false)

/-- The foreign-thread-path loop of AIO_WAIT_WHILE:
while (cond) \x7b if (ctx) aio_context_release(ctx);
aio_poll(qemu_get_aio_context(), true); if (ctx) aio_context_acquire(ctx);
waited = true; \x7d.  Returns the trace together with the final waited flag. -/
def foreignLoop (ctxNonNull : Bool) (cond : Nat → Bool) :
    Nat → Nat → Option (List Event × Bool)
  | k, 0 => if cond k then none else some ([Event.condEval false], false)
  | k, fuel + 1 =>
    if cond k then
      (foreignLoop ctxNonNull cond (k + 1) fuel).map fun p =>
        (Event.condEval true ::
          ((if ctxNonNull then [Event.ctxRelease] else []) ++
            Event.aioPoll PollTarget.globalCtx true ::
              ((if ctxNonNull then [Event.ctxAcquire] else []) ++ p.1)),
          true)
    else some ([Event.condEval false], false)

/-- The AIO_WAIT_WHILE macro of include/block/aio-wait.h.  Selects the
coroutine path when qemu_in_coroutine(), else the home-thread path when
ctx is non-NULL and in_aio_context_home_thread(ctx), else the foreign-thread
path, which first asserts qemu_get_current_aio_context() =
qemu_get_aio_context(), then brackets its loop with atomic_inc and
atomic_dec of num_waiters.  Returns none when the fuel is exhausted. -/
def AIO_WAIT_WHILE (env : ExecEnv) (cond : Nat → Bool) (fuel : Nat) :
    Option Outcome :=
  if env.inCoroutine then
    (coroutineLoop cond 0 fuel).map fun tr => Outcome.ok false tr
  else if env.ctxNonNull && env.inHomeThread then
    (homeLoop cond 0 fuel).map fun p => Outcome.ok p.2 p.1
  else if env.currentCtxIsGlobal then
    (foreignLoop env.ctxNonNull cond 0 fuel).map fun p =>
      Outcome.ok p.2
        (Event.assertion true :: Event.atomicInc :: (p.1 ++ [Event.atomicDec]))
  else
    some (Outcome.assertFailed [Event.assertion false])

/-- The execution path chosen by AIO_WAIT_WHILE, mirroring the branch
structure of the C source. -/
inductive WaitPath where
  | coroutine : WaitPath
  | homeThread : WaitPath
  | foreign : WaitPath
deriving DecidableEq, Repr

/-- Path selected for a given calling context, mirroring the if-chain of
the AIO_WAIT_WHILE source. -/
def pathOf (env : ExecEnv) : WaitPath :=
  if env.inCoroutine then WaitPath.coroutine
  else if env.ctxNonNull && env.inHomeThread then WaitPath.homeThread
  else WaitPath.foreign

/-- The trace of a coroutine-path loop that ran n suspensions. -/
def coTrace : Nat → List Event
  | 0 => [Event.condEval false]
  | n + 1 =>
    Event.condEval true :: Event.atomicInc :: Event.coQueueWait ::
      Event.atomicDec :: coTrace n

/-- The trace of a home-thread-path loop that ran n blocking polls. -/
def homeTrace : Nat → List Event
  | 0 => [Event.condEval false]
  | n + 1 =>
    Event.condEval true :: Event.aioPoll PollTarget.givenCtx true ::
      homeTrace n

/-- The trace of a foreign-thread-path loop that ran n iterations:
each iteration releases ctx exactly when it is non-NULL, runs one blocking
poll of the global context, and reacquires ctx exactly when it is
non-NULL. -/
def foreignTrace (ctxNonNull : Bool) : Nat → List Event
  | 0 => [Event.condEval false]
  | n + 1 =>
    Event.condEval true ::
      ((if ctxNonNull then [Event.ctxRelease] else []) ++
        Event.aioPoll PollTarget.globalCtx true ::
          ((if ctxNonNull then [Event.ctxAcquire] else []) ++
            foreignTrace ctxNonNull n))

lemma coroutineLoop_eq_coTrace (cond : Nat → Bool) :
    ∀ fuel k tr, coroutineLoop cond k fuel = some tr → ∃ n, tr = coTrace n := by
  intro fuel
  induction fuel with
  | zero =>
    intro k tr h
    by_cases hc : cond k = true
    · simp [coroutineLoop, hc] at h
    · simp [coroutineLoop, hc] at h
      exact ⟨0, h.symm⟩
  | succ fuel ih =>
    intro k tr h
    by_cases hc : cond k = true
    · simp only [coroutineLoop, hc, if_true, Option.map_eq_some'] at h
      obtain ⟨rest, hrest, heq⟩ := h
      obtain ⟨n, hn⟩ := ih (k + 1) rest hrest
      exact ⟨n + 1, by rw [← heq, hn]; rfl⟩
    · simp [coroutineLoop, hc] at h
      exact ⟨0, h.symm⟩

lemma homeLoop_eq_homeTrace (cond : Nat → Bool) :
    ∀ fuel k tr w, homeLoop cond k fuel = some (tr, w) →
      ∃ n, tr = homeTrace n ∧ w = decide (0 < n) := by
  intro fuel
  induction fuel with
  | zero =>
    intro k tr w h
    by_cases hc : cond k = true
    · simp [homeLoop, hc] at h
    · simp [homeLoop, hc] at h
      exact ⟨0, h.1.symm, by simp [h.2]⟩
  | succ fuel ih =>
    intro k tr w h
    by_cases hc : cond k = true
    · simp only [homeLoop, hc, if_true, Option.map_eq_some'] at h
      obtain ⟨p, hp, heq⟩ := h
      rw [Prod.mk.injEq] at heq
      obtain ⟨n, hn, _⟩ := ih (k + 1) p.1 p.2 (by rw [← hp])
      refine ⟨n + 1, ?_, ?_⟩
      · rw [← heq.1, hn]; rfl
      · rw [← heq.2]; simp
    · simp [homeLoop, hc] at h
      exact ⟨0, h.1.symm, by simp [h.2]⟩

lemma foreignLoop_eq_foreignTrace (c : Bool) (cond : Nat → Bool) :
    ∀ fuel k tr w, foreignLoop c cond k fuel = some (tr, w) →
      ∃ n, tr = foreignTrace c n ∧ w = decide (0 < n) := by
  intro fuel
  induction fuel with
  | zero =>
    intro k tr w h
    by_cases hc : cond k = true
    · simp [foreignLoop, hc] at h
    · simp [foreignLoop, hc] at h
      exact ⟨0, h.1.symm, by simp [h.2]⟩
  | succ fuel ih =>
    intro k tr w h
    by_cases hc : cond k = true
    · simp only [foreignLoop, hc, if_true, Option.map_eq_some'] at h
      obtain ⟨p, hp, heq⟩ := h
      rw [Prod.mk.injEq] at heq
      obtain ⟨n, hn, _⟩ := ih (k + 1) p.1 p.2 (by rw [← hp])
      refine ⟨n + 1, ?_, ?_⟩
      · rw [← heq.1, hn]; rfl
      · rw [← heq.2]; simp
    · simp [foreignLoop, hc] at h
      exact ⟨0, h.1.symm, by simp [h.2]⟩

lemma coroutineLoop_cond_false (cond : Nat → Bool) (k fuel : Nat)
    (hc : cond k = false) :
    coroutineLoop cond k fuel = some [Event.condEval false] := by
  cases fuel <;> simp [coroutineLoop, hc]

lemma homeLoop_cond_false (cond : Nat → Bool) (k fuel : Nat)
    (hc : cond k = false) :
    homeLoop cond k fuel = some ([Event.condEval false], false) := by
  cases fuel <;> simp [homeLoop, hc]

lemma foreignLoop_cond_false (c : Bool) (cond : Nat → Bool) (k fuel : Nat)
    (hc : cond k = false) :
    foreignLoop c cond k fuel = some ([Event.condEval false], false) := by
  cases fuel <;> simp [foreignLoop, hc]

lemma coTrace_only (n : Nat) :
    ∀ e ∈ coTrace n, e.isCondEval = true ∨ e = Event.atomicInc ∨
      e = Event.coQueueWait ∨ e = Event.atomicDec := by
  induction n with
  | zero => intro e he; simp [coTrace] at he; simp [he, Event.isCondEval]
  | succ n ih =>
    intro e he
    simp only [coTrace, List.mem_cons] at he
    rcases he with h | h | h | h | h
    · simp [h, Event.isCondEval]
    · simp [h]
    · simp [h]
    · simp [h]
    · exact ih e h

lemma homeTrace_only (n : Nat) :
    ∀ e ∈ homeTrace n, e.isCondEval = true ∨
      e = Event.aioPoll PollTarget.givenCtx true := by
  induction n with
  | zero => intro e he; simp [homeTrace] at he; simp [he, Event.isCondEval]
  | succ n ih =>
    intro e he
    simp only [homeTrace, List.mem_cons] at he
    rcases he with h | h | h
    · simp [h, Event.isCondEval]
    · simp [h]
    · exact ih e h

lemma foreignTrace_only (c : Bool) (n : Nat) :
    ∀ e ∈ foreignTrace c n, e.isCondEval = true ∨
      e = Event.aioPoll PollTarget.globalCtx true ∨
      (c = true ∧ (e = Event.ctxRelease ∨ e = Event.ctxAcquire)) := by
  induction n with
  | zero => intro e he; simp [foreignTrace] at he; simp [he, Event.isCondEval]
  | succ n ih =>
    intro e he
    simp only [foreignTrace, List.mem_cons, List.mem_append] at he
    rcases he with h | h | h | h
    · simp [h, Event.isCondEval]
    · cases c with
      | false => simp at h
      | true => simp at h; simp [h]
    · simp [h]
    · rcases h with h | h
      · cases c with
        | false => simp at h
        | true => simp at h; simp [h]
      · exact ih e h

lemma homeTrace_poll_iff (n : Nat) :
    (∃ e ∈ homeTrace n, e.isAioPoll = true) ↔ 0 < n := by
  cases n with
  | zero =>
    simp only [homeTrace]
    constructor
    · rintro ⟨e, he, hp⟩
      simp at he
      simp [he, Event.isAioPoll] at hp
    · omega
  | succ n =>
    simp only [homeTrace]
    constructor
    · omega
    · intro _
      exact ⟨Event.aioPoll PollTarget.givenCtx true, by simp, rfl⟩

lemma foreignTrace_poll_iff (c : Bool) (n : Nat) :
    (∃ e ∈ foreignTrace c n, e.isAioPoll = true) ↔ 0 < n := by
  cases n with
  | zero =>
    simp only [foreignTrace]
    constructor
    · rintro ⟨e, he, hp⟩
      simp at he
      simp [he, Event.isAioPoll] at hp
    · omega
  | succ n =>
    constructor
    · omega
    · intro _
      exact ⟨Event.aioPoll PollTarget.globalCtx true, by simp [foreignTrace], rfl⟩

lemma condEval_false_mem_foreignTrace (c : Bool) (n : Nat) :
    Event.condEval false ∈ foreignTrace c n := by
  induction n with
  | zero => simp [foreignTrace]
  | succ n ih => simp only [foreignTrace]; simp [ih]

lemma coTrace_count_inc (n : Nat) : (coTrace n).count Event.atomicInc = n := by
  induction n with
  | zero => simp [coTrace]
  | succ n ih => simp [coTrace, List.count_cons, ih]

lemma coTrace_count_dec (n : Nat) : (coTrace n).count Event.atomicDec = n := by
  induction n with
  | zero => simp [coTrace]
  | succ n ih => simp [coTrace, List.count_cons, ih]

lemma coTrace_count_wait (n : Nat) :
    (coTrace n).count Event.coQueueWait = n := by
  induction n with
  | zero => simp [coTrace]
  | succ n ih => simp [coTrace, List.count_cons, ih]

lemma coTrace_head (n : Nat) :
    ∃ v rest, coTrace n = Event.condEval v :: rest := by
  cases n with
  | zero => exact ⟨false, [], rfl⟩
  | succ n =>
    exact ⟨true, Event.atomicInc :: Event.coQueueWait :: Event.atomicDec ::
      coTrace n, rfl⟩

lemma coTrace_no_poll (n : Nat) : ∀ e ∈ coTrace n, e.isAioPoll = false := by
  intro e he
  rcases coTrace_only n e he with h | h | h | h
  · cases e <;> simp_all [Event.isCondEval, Event.isAioPoll]
  · simp [h, Event.isAioPoll]
  · simp [h, Event.isAioPoll]
  · simp [h, Event.isAioPoll]

lemma coTrace_coQueueWait_split (n : Nat) :
    ∀ pre post, coTrace n = pre ++ Event.coQueueWait :: post →
      ∃ v post2, post = Event.atomicDec :: Event.condEval v :: post2 := by
  induction n with
  | zero =>
    intro pre post h
    have hmem : Event.coQueueWait ∈ coTrace 0 := by rw [h]; simp
    simp [coTrace] at hmem
  | succ n ih =>
    intro pre post h
    match pre with
    | [] => simp [coTrace] at h
    | [e1] => simp [coTrace] at h
    | [e1, e2] =>
      simp only [coTrace, List.cons_append, List.nil_append,
        List.cons.injEq] at h
      obtain ⟨v, rest, hn⟩ := coTrace_head n
      exact ⟨v, rest, by rw [← h.2.2.2, hn]⟩
    | e1 :: e2 :: e3 :: pre' =>
      simp only [coTrace, List.cons_append, List.cons.injEq] at h
      have h4 := h.2.2.2
      match pre' with
      | [] => simp at h4
      | e4 :: pre'' =>
        simp only [List.cons_append, List.cons.injEq] at h4
        exact ih pre'' post h4.2

lemma atomicInc_not_mem_foreignTrace (c : Bool) (n : Nat) :
    Event.atomicInc ∉ foreignTrace c n := by
  intro h
  rcases foreignTrace_only c n _ h with h' | h' | ⟨_, h' | h'⟩ <;>
    simp [Event.isCondEval] at h'

lemma atomicDec_not_mem_foreignTrace (c : Bool) (n : Nat) :
    Event.atomicDec ∉ foreignTrace c n := by
  intro h
  rcases foreignTrace_only c n _ h with h' | h' | ⟨_, h' | h'⟩ <;>
    simp [Event.isCondEval] at h'

lemma AIO_WAIT_WHILE_co_run (env : ExecEnv) (cond : Nat → Bool) (fuel : Nat)
    (w : Bool) (tr : List Event) (hco : env.inCoroutine = true)
    (hrun : AIO_WAIT_WHILE env cond fuel = some (Outcome.ok w tr)) :
    w = false ∧ ∃ n, tr = coTrace n ∧ coroutineLoop cond 0 fuel = some tr := by
  simp only [AIO_WAIT_WHILE, hco, if_true, Option.map_eq_some'] at hrun
  obtain ⟨tr', htr', heq⟩ := hrun
  rw [Outcome.ok.injEq] at heq
  obtain ⟨n, hn⟩ := coroutineLoop_eq_coTrace cond fuel 0 tr' htr'
  exact ⟨heq.1.symm, n, by rw [← heq.2, hn], by rw [← heq.2]; exact htr'⟩

lemma AIO_WAIT_WHILE_home_run (env : ExecEnv) (cond : Nat → Bool) (fuel : Nat)
    (w : Bool) (tr : List Event) (hco : env.inCoroutine = false)
    (hhome : (env.ctxNonNull && env.inHomeThread) = true)
    (hrun : AIO_WAIT_WHILE env cond fuel = some (Outcome.ok w tr)) :
    ∃ n, tr = homeTrace n ∧ w = decide (0 < n) := by
  simp only [AIO_WAIT_WHILE, hco, hhome, if_true, Bool.false_eq_true,
    if_false, Option.map_eq_some'] at hrun
  obtain ⟨p, hp, heq⟩ := hrun
  rw [Outcome.ok.injEq] at heq
  obtain ⟨n, hn, hw⟩ := homeLoop_eq_homeTrace cond fuel 0 p.1 p.2 (by rw [← hp])
  exact ⟨n, by rw [← heq.2, hn], by rw [← heq.1, hw]⟩

lemma AIO_WAIT_WHILE_foreign_run (env : ExecEnv) (cond : Nat → Bool)
    (fuel : Nat) (w : Bool) (tr : List Event) (hco : env.inCoroutine = false)
    (hhome : (env.ctxNonNull && env.inHomeThread) = false)
    (hrun : AIO_WAIT_WHILE env cond fuel = some (Outcome.ok w tr)) :
    env.currentCtxIsGlobal = true ∧
      ∃ n, tr = Event.assertion true :: Event.atomicInc ::
          (foreignTrace env.ctxNonNull n ++ [Event.atomicDec]) ∧
        w = decide (0 < n) := by
  by_cases hg : env.currentCtxIsGlobal = true
  · simp only [AIO_WAIT_WHILE, hco, hhome, hg, if_true, Bool.false_eq_true,
      if_false, Option.map_eq_some'] at hrun
    obtain ⟨p, hp, heq⟩ := hrun
    rw [Outcome.ok.injEq] at heq
    obtain ⟨n, hn, hw⟩ :=
      foreignLoop_eq_foreignTrace env.ctxNonNull cond fuel 0 p.1 p.2
        (by rw [← hp])
    exact ⟨hg, n, by rw [← heq.2, hn], by rw [← heq.1, hw]⟩
  · simp only [AIO_WAIT_WHILE, hco, hhome, hg,
      Bool.false_eq_true, if_false] at hrun
    simp at hrun

lemma atomicInc_not_mem_homeTrace (n : Nat) :
    Event.atomicInc ∉ homeTrace n := by
  intro h
  rcases homeTrace_only n _ h with h' | h' <;> simp [Event.isCondEval] at h'

lemma atomicDec_not_mem_homeTrace (n : Nat) :
    Event.atomicDec ∉ homeTrace n := by
  intro h
  rcases homeTrace_only n _ h with h' | h' <;> simp [Event.isCondEval] at h'

lemma coQueueWait_not_mem_homeTrace (n : Nat) :
    Event.coQueueWait ∉ homeTrace n := by
  intro h
  rcases homeTrace_only n _ h with h' | h' <;> simp [Event.isCondEval] at h'

lemma isCondEval_not_isAioPoll (e : Event) (h : e.isCondEval = true) :
    e.isAioPoll = false := by
  cases e <;> simp_all [Event.isCondEval, Event.isAioPoll]

lemma AIO_WAIT_WHILE_cond0_false (env : ExecEnv) (cond : Nat → Bool)
    (fuel : Nat) (w : Bool) (tr : List Event) (hc : cond 0 = false)
    (hrun : AIO_WAIT_WHILE env cond fuel = some (Outcome.ok w tr)) :
    w = false := by
  unfold AIO_WAIT_WHILE at hrun
  by_cases hco : env.inCoroutine = true
  · rw [hco] at hrun
    simp only [if_true] at hrun
    rw [coroutineLoop_cond_false cond 0 fuel hc] at hrun
    simp [Outcome.ok.injEq] at hrun
    exact hrun.1
  · rw [Bool.not_eq_true] at hco
    rw [hco] at hrun
    simp only [Bool.false_eq_true, if_false] at hrun
    by_cases hh : (env.ctxNonNull && env.inHomeThread) = true
    · rw [hh] at hrun
      simp only [if_true] at hrun
      rw [homeLoop_cond_false cond 0 fuel hc] at hrun
      simp [Outcome.ok.injEq] at hrun
      exact hrun.1
    · rw [Bool.not_eq_true] at hh
      rw [hh] at hrun
      simp only [Bool.false_eq_true, if_false] at hrun
      by_cases hg : env.currentCtxIsGlobal = true
      · rw [hg] at hrun
        simp only [if_true] at hrun
        rw [foreignLoop_cond_false env.ctxNonNull cond 0 fuel hc] at hrun
        simp [Outcome.ok.injEq] at hrun
        exact hrun.1
      · rw [Bool.not_eq_true] at hg
        rw [hg] at hrun
        simp at hrun

/-- C1: on the foreign-thread path of AIO_WAIT_WHILE (caller not in a
coroutine, and not the home thread of a non-NULL ctx), every complete
execution increments num_waiters strictly before the first evaluation of the
condition and decrements it only after the last evaluation: the trace is the
assertion, then the atomic increment, then a segment holding every condition
evaluation (and at least one) but no increment or decrement, then the atomic
decrement. -/
theorem aio_wait_while_foreign_inc_brackets_cond_evals
    (env : ExecEnv) (cond : Nat → Bool) (fuel : Nat) (w : Bool)
    (tr : List Event) (hco : env.inCoroutine = false)
    (hhome : (env.ctxNonNull && env.inHomeThread) = false)
    (hrun : AIO_WAIT_WHILE env cond fuel = some (Outcome.ok w tr)) :
    ∃ body, tr = Event.assertion true :: Event.atomicInc ::
        (body ++ [Event.atomicDec]) ∧
      Event.atomicInc ∉ body ∧ Event.atomicDec ∉ body ∧
      (∀ e ∈ tr, e.isCondEval = true → e ∈ body) ∧
      ∃ e ∈ body, e.isCondEval = true := by
  obtain ⟨-, n, htr, -⟩ :=
    AIO_WAIT_WHILE_foreign_run env cond fuel w tr hco hhome hrun
  refine ⟨foreignTrace env.ctxNonNull n, htr,
    atomicInc_not_mem_foreignTrace _ n, atomicDec_not_mem_foreignTrace _ n,
    ?_, Event.condEval false, condEval_false_mem_foreignTrace _ n, rfl⟩
  intro e he hce
  rw [htr] at he
  simp at he
  rcases he with h | h | h | h
  · subst h; simp [Event.isCondEval] at hce
  · subst h; simp [Event.isCondEval] at hce
  · exact h
  · subst h; simp [Event.isCondEval] at hce

/-- Witness for C1 at a concrete foreign-thread call with NULL ctx and a
condition that is true exactly once. -/
theorem aio_wait_while_foreign_inc_brackets_cond_evals_witness :
    ∃ body, ([Event.assertion true, Event.atomicInc, Event.condEval true,
        Event.aioPoll PollTarget.globalCtx true, Event.condEval false,
        Event.atomicDec] : List Event) = Event.assertion true ::
        Event.atomicInc :: (body ++ [Event.atomicDec]) ∧
      Event.atomicInc ∉ body ∧ Event.atomicDec ∉ body ∧
      (∀ e ∈ ([Event.assertion true, Event.atomicInc, Event.condEval true,
        Event.aioPoll PollTarget.globalCtx true, Event.condEval false,
        Event.atomicDec] : List Event), e.isCondEval = true → e ∈ body) ∧
      ∃ e ∈ body, e.isCondEval = true :=
  aio_wait_while_foreign_inc_brackets_cond_evals
    ⟨false, false, false, true⟩ (fun k => decide (k = 0)) 3 true _
    rfl rfl (by decide)

lemma ctxRelease_not_mem_foreignTrace_false (n : Nat) :
    Event.ctxRelease ∉ foreignTrace false n := by
  intro h
  rcases foreignTrace_only false n _ h with h' | h' | ⟨h', -⟩ <;>
    simp [Event.isCondEval] at h'

lemma ctxAcquire_not_mem_foreignTrace_false (n : Nat) :
    Event.ctxAcquire ∉ foreignTrace false n := by
  intro h
  rcases foreignTrace_only false n _ h with h' | h' | ⟨h', -⟩ <;>
    simp [Event.isCondEval] at h'

lemma foreignTrace_count_poll (c : Bool) (n : Nat) :
    (foreignTrace c n).count (Event.aioPoll PollTarget.globalCtx true) = n := by
  induction n with
  | zero => cases c <;> simp [foreignTrace]
  | succ n ih =>
    cases c <;> simp_all [foreignTrace, List.count_cons, List.count_append]

lemma foreignTrace_count_release (c : Bool) (n : Nat) :
    (foreignTrace c n).count Event.ctxRelease =
      if c = true then n else 0 := by
  induction n with
  | zero => cases c <;> simp [foreignTrace]
  | succ n ih =>
    cases c <;> simp_all [foreignTrace, List.count_cons, List.count_append]

lemma foreignTrace_count_acquire (c : Bool) (n : Nat) :
    (foreignTrace c n).count Event.ctxAcquire =
      if c = true then n else 0 := by
  induction n with
  | zero => cases c <;> simp [foreignTrace]
  | succ n ih =>
    cases c <;> simp_all [foreignTrace, List.count_cons, List.count_append]

/-- C2: the path of an AIO_WAIT_WHILE call is a function of the calling
context: the coroutine path exactly when qemu_in_coroutine(), the home-thread
path exactly when not in a coroutine and ctx is non-NULL with the caller in
its home thread, and the foreign-thread path in every other case, including
every non-coroutine call with NULL ctx.  The coroutine path issues no
aio_poll at all, the home-thread path polls only the given ctx (blocking),
and the foreign-thread path polls only the global context (blocking). -/
theorem aio_wait_while_path_selection
    (env : ExecEnv) (cond : Nat → Bool) (fuel : Nat) (w : Bool)
    (tr : List Event)
    (hrun : AIO_WAIT_WHILE env cond fuel = some (Outcome.ok w tr)) :
    (pathOf env = WaitPath.coroutine ↔ env.inCoroutine = true) ∧
    (pathOf env = WaitPath.homeThread ↔
      env.inCoroutine = false ∧ (env.ctxNonNull && env.inHomeThread) = true) ∧
    (pathOf env = WaitPath.foreign ↔
      env.inCoroutine = false ∧
        (env.ctxNonNull && env.inHomeThread) = false) ∧
    (env.inCoroutine = false → env.ctxNonNull = false →
      pathOf env = WaitPath.foreign) ∧
    (env.inCoroutine = true → ∀ e ∈ tr, e.isAioPoll = false) ∧
    (env.inCoroutine = false → (env.ctxNonNull && env.inHomeThread) = true →
      ∀ e ∈ tr, e.isAioPoll = true →
        e = Event.aioPoll PollTarget.givenCtx true) ∧
    (env.inCoroutine = false → (env.ctxNonNull && env.inHomeThread) = false →
      ∀ e ∈ tr, e.isAioPoll = true →
        e = Event.aioPoll PollTarget.globalCtx true) := by
  obtain ⟨ic, cn, ih, cg⟩ := env
  refine ⟨?_, ?_, ?_, ?_, ?_, ?_, ?_⟩
  · cases ic <;> cases cn <;> cases ih <;> simp [pathOf]
  · cases ic <;> cases cn <;> cases ih <;> simp [pathOf]
  · cases ic <;> cases cn <;> cases ih <;> simp [pathOf]
  · intro h1 h2
    subst h1; subst h2; simp [pathOf]
  · intro hco e he
    obtain ⟨-, n, htr, -⟩ :=
      AIO_WAIT_WHILE_co_run ⟨ic, cn, ih, cg⟩ cond fuel w tr hco hrun
    rw [htr] at he
    exact coTrace_no_poll n e he
  · intro hco hhome e he hp
    obtain ⟨n, htr, -⟩ :=
      AIO_WAIT_WHILE_home_run ⟨ic, cn, ih, cg⟩ cond fuel w tr hco hhome hrun
    rw [htr] at he
    rcases homeTrace_only n e he with h | h
    · rw [isCondEval_not_isAioPoll e h] at hp
      exact absurd hp (by simp)
    · exact h
  · intro hco hhome e he hp
    obtain ⟨-, n, htr, -⟩ :=
      AIO_WAIT_WHILE_foreign_run ⟨ic, cn, ih, cg⟩ cond fuel w tr hco hhome
        hrun
    rw [htr] at he
    simp at he
    rcases he with h | h | h | h
    · subst h; simp [Event.isAioPoll] at hp
    · subst h; simp [Event.isAioPoll] at hp
    · rcases foreignTrace_only _ n e h with h' | h' | ⟨-, h' | h'⟩
      · rw [isCondEval_not_isAioPoll e h'] at hp
        exact absurd hp (by simp)
      · exact h'
      · subst h'; simp [Event.isAioPoll] at hp
      · subst h'; simp [Event.isAioPoll] at hp
    · subst h; simp [Event.isAioPoll] at hp

/-- Witness for C2 at a concrete home-thread call whose condition is true
exactly once. -/
theorem aio_wait_while_path_selection_witness :
    (pathOf ⟨false, true, true, true⟩ = WaitPath.coroutine ↔
      (⟨false, true, true, true⟩ : ExecEnv).inCoroutine = true) ∧
    (pathOf ⟨false, true, true, true⟩ = WaitPath.homeThread ↔
      (⟨false, true, true, true⟩ : ExecEnv).inCoroutine = false ∧
        ((⟨false, true, true, true⟩ : ExecEnv).ctxNonNull &&
          (⟨false, true, true, true⟩ : ExecEnv).inHomeThread) = true) ∧
    (pathOf ⟨false, true, true, true⟩ = WaitPath.foreign ↔
      (⟨false, true, true, true⟩ : ExecEnv).inCoroutine = false ∧
        ((⟨false, true, true, true⟩ : ExecEnv).ctxNonNull &&
          (⟨false, true, true, true⟩ : ExecEnv).inHomeThread) = false) ∧
    ((⟨false, true, true, true⟩ : ExecEnv).inCoroutine = false →
      (⟨false, true, true, true⟩ : ExecEnv).ctxNonNull = false →
      pathOf ⟨false, true, true, true⟩ = WaitPath.foreign) ∧
    ((⟨false, true, true, true⟩ : ExecEnv).inCoroutine = true →
      ∀ e ∈ ([Event.condEval true, Event.aioPoll PollTarget.givenCtx true,
        Event.condEval false] : List Event), e.isAioPoll = false) ∧
    ((⟨false, true, true, true⟩ : ExecEnv).inCoroutine = false →
      ((⟨false, true, true, true⟩ : ExecEnv).ctxNonNull &&
        (⟨false, true, true, true⟩ : ExecEnv).inHomeThread) = true →
      ∀ e ∈ ([Event.condEval true, Event.aioPoll PollTarget.givenCtx true,
        Event.condEval false] : List Event), e.isAioPoll = true →
        e = Event.aioPoll PollTarget.givenCtx true) ∧
    ((⟨false, true, true, true⟩ : ExecEnv).inCoroutine = false →
      ((⟨false, true, true, true⟩ : ExecEnv).ctxNonNull &&
        (⟨false, true, true, true⟩ : ExecEnv).inHomeThread) = false →
      ∀ e ∈ ([Event.condEval true, Event.aioPoll PollTarget.givenCtx true,
        Event.condEval false] : List Event), e.isAioPoll = true →
        e = Event.aioPoll PollTarget.globalCtx true) :=
  aio_wait_while_path_selection ⟨false, true, true, true⟩
    (fun k => decide (k = 0)) 3 true _ (by decide)

/-- C3: each iteration of the foreign-thread wait loop of AIO_WAIT_WHILE
releases ctx exactly when ctx is non-NULL, then runs exactly one blocking
aio_poll of the global context, then reacquires ctx exactly when ctx is
non-NULL, and sets the waited flag; when ctx is NULL no release or acquire
call appears anywhere in the trace. -/
theorem aio_wait_while_foreign_loop_body_shape
    (env : ExecEnv) (cond : Nat → Bool) (fuel : Nat) (w : Bool)
    (tr : List Event) (hco : env.inCoroutine = false)
    (hhome : (env.ctxNonNull && env.inHomeThread) = false)
    (hrun : AIO_WAIT_WHILE env cond fuel = some (Outcome.ok w tr)) :
    ∃ n, tr = Event.assertion true :: Event.atomicInc ::
        (foreignTrace env.ctxNonNull n ++ [Event.atomicDec]) ∧
      w = decide (0 < n) ∧
      (foreignTrace env.ctxNonNull n).count
        (Event.aioPoll PollTarget.globalCtx true) = n ∧
      (foreignTrace env.ctxNonNull n).count Event.ctxRelease =
        (if env.ctxNonNull = true then n else 0) ∧
      (foreignTrace env.ctxNonNull n).count Event.ctxAcquire =
        (if env.ctxNonNull = true then n else 0) ∧
      (env.ctxNonNull = false →
        Event.ctxRelease ∉ tr ∧ Event.ctxAcquire ∉ tr) := by
  obtain ⟨-, n, htr, hw⟩ :=
    AIO_WAIT_WHILE_foreign_run env cond fuel w tr hco hhome hrun
  refine ⟨n, htr, hw, foreignTrace_count_poll _ n,
    foreignTrace_count_release _ n, foreignTrace_count_acquire _ n, ?_⟩
  intro hnull
  constructor
  · intro h
    rw [htr, hnull] at h
    simp [ctxRelease_not_mem_foreignTrace_false n] at h
  · intro h
    rw [htr, hnull] at h
    simp [ctxAcquire_not_mem_foreignTrace_false n] at h

/-- Witness for C3 at a concrete foreign-thread call with a non-NULL ctx
owned by another thread and a condition that is true exactly once. -/
theorem aio_wait_while_foreign_loop_body_shape_witness :
    ∃ n, ([Event.assertion true, Event.atomicInc, Event.condEval true,
        Event.ctxRelease, Event.aioPoll PollTarget.globalCtx true,
        Event.ctxAcquire, Event.condEval false, Event.atomicDec] :
          List Event) = Event.assertion true :: Event.atomicInc ::
        (foreignTrace true n ++ [Event.atomicDec]) ∧
      (true : Bool) = decide (0 < n) ∧
      (foreignTrace true n).count
        (Event.aioPoll PollTarget.globalCtx true) = n ∧
      (foreignTrace true n).count Event.ctxRelease =
        (if true = true then n else 0) ∧
      (foreignTrace true n).count Event.ctxAcquire =
        (if true = true then n else 0) ∧
      ((true : Bool) = false →
        Event.ctxRelease ∉ ([Event.assertion true, Event.atomicInc,
          Event.condEval true, Event.ctxRelease,
          Event.aioPoll PollTarget.globalCtx true, Event.ctxAcquire,
          Event.condEval false, Event.atomicDec] : List Event) ∧
        Event.ctxAcquire ∉ ([Event.assertion true, Event.atomicInc,
          Event.condEval true, Event.ctxRelease,
          Event.aioPoll PollTarget.globalCtx true, Event.ctxAcquire,
          Event.condEval false, Event.atomicDec] : List Event)) :=
  aio_wait_while_foreign_loop_body_shape ⟨false, true, false, true⟩
    (fun k => decide (k = 0)) 3 true _ rfl rfl (by decide)

/-- C4: a complete AIO_WAIT_WHILE call returns true exactly when its own
trace contains a blocking aio_poll (one loop-body execution of the
home-thread or foreign-thread path); the coroutine path returns false no
matter how often it suspended, and every path returns false when the
condition is false at its first evaluation. -/
theorem aio_wait_while_returns_waited
    (env : ExecEnv) (cond : Nat → Bool) (fuel : Nat) (w : Bool)
    (tr : List Event)
    (hrun : AIO_WAIT_WHILE env cond fuel = some (Outcome.ok w tr)) :
    (w = true ↔ ∃ e ∈ tr, e.isAioPoll = true) ∧
    (env.inCoroutine = true → w = false) ∧
    (cond 0 = false → w = false) := by
  refine ⟨?_, ?_, fun hc => AIO_WAIT_WHILE_cond0_false env cond fuel w tr
    hc hrun⟩
  · by_cases hco : env.inCoroutine = true
    · obtain ⟨hw, n, htr, -⟩ :=
        AIO_WAIT_WHILE_co_run env cond fuel w tr hco hrun
      subst hw
      constructor
      · intro h; exact absurd h (by simp)
      · rintro ⟨e, he, hp⟩
        rw [htr] at he
        rw [coTrace_no_poll n e he] at hp
        exact absurd hp (by simp)
    · rw [Bool.not_eq_true] at hco
      by_cases hh : (env.ctxNonNull && env.inHomeThread) = true
      · obtain ⟨n, htr, hw⟩ :=
          AIO_WAIT_WHILE_home_run env cond fuel w tr hco hh hrun
        subst htr; subst hw
        simpa using (homeTrace_poll_iff n).symm
      · rw [Bool.not_eq_true] at hh
        obtain ⟨-, n, htr, hw⟩ :=
          AIO_WAIT_WHILE_foreign_run env cond fuel w tr hco hh hrun
        subst htr; subst hw
        constructor
        · intro h
          rw [decide_eq_true_iff] at h
          obtain ⟨e, he, hp⟩ := (foreignTrace_poll_iff env.ctxNonNull n).mpr h
          exact ⟨e, by simp [he], hp⟩
        · rintro ⟨e, he, hp⟩
          simp at he
          rcases he with h | h | h | h
          · subst h; simp [Event.isAioPoll] at hp
          · subst h; simp [Event.isAioPoll] at hp
          · rw [decide_eq_true_iff]
            exact (foreignTrace_poll_iff env.ctxNonNull n).mp ⟨e, h, hp⟩
          · subst h; simp [Event.isAioPoll] at hp
  · intro hco
    exact (AIO_WAIT_WHILE_co_run env cond fuel w tr hco hrun).1

/-- Witness for C4 at a concrete coroutine-path call that suspends once. -/
theorem aio_wait_while_returns_waited_witness :
    ((false : Bool) = true ↔ ∃ e ∈ ([Event.condEval true, Event.atomicInc,
        Event.coQueueWait, Event.atomicDec, Event.condEval false] :
        List Event), e.isAioPoll = true) ∧
    ((⟨true, false, false, true⟩ : ExecEnv).inCoroutine = true →
      (false : Bool) = false) ∧
    ((fun k => decide (k = 0)) 0 = false → (false : Bool) = false) :=
  aio_wait_while_returns_waited ⟨true, false, false, true⟩
    (fun k => decide (k = 0)) 3 false _ (by decide)

/-- C5: the home-thread path of AIO_WAIT_WHILE never touches the AioWait
object: its trace contains no increment or decrement of num_waiters and no
wait on the wait_queue, only condition evaluations and blocking polls of the
given ctx. -/
theorem aio_wait_while_home_no_waiter_state
    (env : ExecEnv) (cond : Nat → Bool) (fuel : Nat) (w : Bool)
    (tr : List Event) (hco : env.inCoroutine = false)
    (hhome : (env.ctxNonNull && env.inHomeThread) = true)
    (hrun : AIO_WAIT_WHILE env cond fuel = some (Outcome.ok w tr)) :
    Event.atomicInc ∉ tr ∧ Event.atomicDec ∉ tr ∧
      Event.coQueueWait ∉ tr ∧
      ∀ e ∈ tr, e.isCondEval = true ∨
        e = Event.aioPoll PollTarget.givenCtx true := by
  obtain ⟨n, htr, -⟩ :=
    AIO_WAIT_WHILE_home_run env cond fuel w tr hco hhome hrun
  subst htr
  exact ⟨atomicInc_not_mem_homeTrace n, atomicDec_not_mem_homeTrace n,
    coQueueWait_not_mem_homeTrace n, homeTrace_only n⟩

/-- Witness for C5 at a concrete home-thread call whose condition is true
exactly once. -/
theorem aio_wait_while_home_no_waiter_state_witness :
    Event.atomicInc ∉ ([Event.condEval true,
        Event.aioPoll PollTarget.givenCtx true, Event.condEval false] :
        List Event) ∧
      Event.atomicDec ∉ ([Event.condEval true,
        Event.aioPoll PollTarget.givenCtx true, Event.condEval false] :
        List Event) ∧
      Event.coQueueWait ∉ ([Event.condEval true,
        Event.aioPoll PollTarget.givenCtx true, Event.condEval false] :
        List Event) ∧
      ∀ e ∈ ([Event.condEval true, Event.aioPoll PollTarget.givenCtx true,
        Event.condEval false] : List Event), e.isCondEval = true ∨
        e = Event.aioPoll PollTarget.givenCtx true :=
  aio_wait_while_home_no_waiter_state ⟨false, true, true, true⟩
    (fun k => decide (k = 0)) 3 true _ rfl rfl (by decide)

/-- C6: the foreign-thread path of AIO_WAIT_WHILE asserts before any waiting
that the current aio context is the global one: a caller whose current
context is not the global context trips the assertion and the execution
stops at the trace [assertion false], with no increment, no condition
evaluation and no poll; when the caller is on the global context the
assertion cannot fail and the execution completes with a trace whose first
event is the passed assertion. -/
theorem aio_wait_while_foreign_assertion
    (env : ExecEnv) (cond : Nat → Bool) (fuel : Nat)
    (hco : env.inCoroutine = false)
    (hhome : (env.ctxNonNull && env.inHomeThread) = false) :
    (env.currentCtxIsGlobal = false →
      AIO_WAIT_WHILE env cond fuel =
        some (Outcome.assertFailed [Event.assertion false])) ∧
    (env.currentCtxIsGlobal = true →
      ∀ out, AIO_WAIT_WHILE env cond fuel = some out →
        ∃ w tr, out = Outcome.ok w tr ∧
          tr.head? = some (Event.assertion true)) := by
  constructor
  · intro hg
    simp [AIO_WAIT_WHILE, hco, hhome, hg]
  · intro hg out hout
    cases out with
    | assertFailed tr' =>
      simp only [AIO_WAIT_WHILE, hco, hhome, hg, if_true, Bool.false_eq_true,
        if_false, Option.map_eq_some'] at hout
      obtain ⟨p, -, heq⟩ := hout
      exact absurd heq (by simp)
    | ok w tr =>
      obtain ⟨-, n, htr, -⟩ :=
        AIO_WAIT_WHILE_foreign_run env cond fuel w tr hco hhome hout
      exact ⟨w, tr, rfl, by rw [htr]; rfl⟩

/-- Witness for C6 at a concrete non-coroutine caller on a thread whose
current context is not the global one: the call stops at the failed
assertion. -/
theorem aio_wait_while_foreign_assertion_witness :
    ((⟨false, false, false, false⟩ : ExecEnv).currentCtxIsGlobal = false →
      AIO_WAIT_WHILE ⟨false, false, false, false⟩
          (fun k => decide (k = 0)) 3 =
        some (Outcome.assertFailed [Event.assertion false])) ∧
    ((⟨false, false, false, false⟩ : ExecEnv).currentCtxIsGlobal = true →
      ∀ out, AIO_WAIT_WHILE ⟨false, false, false, false⟩
          (fun k => decide (k = 0)) 3 = some out →
        ∃ w tr, out = Outcome.ok w tr ∧
          tr.head? = some (Event.assertion true)) :=
  aio_wait_while_foreign_assertion ⟨false, false, false, false⟩
    (fun k => decide (k = 0)) 3 rfl rfl

/-- C9: every complete AIO_WAIT_WHILE execution performs equally many atomic
increments and decrements of num_waiters; the foreign-thread path performs
exactly one of each (also when the condition is false at the first
evaluation), and the coroutine path brackets each suspension with one
increment and one decrement, so on that path both counts equal the number
of suspensions. -/
theorem aio_wait_while_waiter_count_balanced
    (env : ExecEnv) (cond : Nat → Bool) (fuel : Nat) (w : Bool)
    (tr : List Event)
    (hrun : AIO_WAIT_WHILE env cond fuel = some (Outcome.ok w tr)) :
    tr.count Event.atomicInc = tr.count Event.atomicDec ∧
    (env.inCoroutine = false → (env.ctxNonNull && env.inHomeThread) = false →
      tr.count Event.atomicInc = 1 ∧ tr.count Event.atomicDec = 1) ∧
    (env.inCoroutine = true →
      tr.count Event.atomicInc = tr.count Event.coQueueWait ∧
      tr.count Event.atomicDec = tr.count Event.coQueueWait) := by
  by_cases hco : env.inCoroutine = true
  · obtain ⟨-, n, htr, -⟩ :=
      AIO_WAIT_WHILE_co_run env cond fuel w tr hco hrun
    subst htr
    refine ⟨?_, ?_, ?_⟩
    · rw [coTrace_count_inc n, coTrace_count_dec n]
    · intro h; exact absurd hco (by simp [h])
    · intro _
      rw [coTrace_count_inc n, coTrace_count_dec n, coTrace_count_wait n]
      exact ⟨rfl, rfl⟩
  · rw [Bool.not_eq_true] at hco
    by_cases hh : (env.ctxNonNull && env.inHomeThread) = true
    · obtain ⟨n, htr, -⟩ :=
        AIO_WAIT_WHILE_home_run env cond fuel w tr hco hh hrun
      subst htr
      refine ⟨?_, ?_, ?_⟩
      · rw [List.count_eq_zero.mpr (atomicInc_not_mem_homeTrace n),
          List.count_eq_zero.mpr (atomicDec_not_mem_homeTrace n)]
      · intro _ h; exact absurd hh (by simp [h])
      · intro h; exact absurd hco (by simp [h])
    · rw [Bool.not_eq_true] at hh
      obtain ⟨-, n, htr, -⟩ :=
        AIO_WAIT_WHILE_foreign_run env cond fuel w tr hco hh hrun
      subst htr
      have hinc : (Event.assertion true :: Event.atomicInc ::
          (foreignTrace env.ctxNonNull n ++ [Event.atomicDec])).count
            Event.atomicInc = 1 := by
        simp [List.count_cons, List.count_append,
          List.count_eq_zero.mpr (atomicInc_not_mem_foreignTrace
            env.ctxNonNull n)]
      have hdec : (Event.assertion true :: Event.atomicInc ::
          (foreignTrace env.ctxNonNull n ++ [Event.atomicDec])).count
            Event.atomicDec = 1 := by
        simp [List.count_cons, List.count_append,
          List.count_eq_zero.mpr (atomicDec_not_mem_foreignTrace
            env.ctxNonNull n)]
      refine ⟨by rw [hinc, hdec], fun _ _ => ⟨hinc, hdec⟩, ?_⟩
      intro h; exact absurd hco (by simp [h])

/-- Witness for C9 at a concrete foreign-thread call whose condition is
already false at the first evaluation: one increment, one decrement. -/
theorem aio_wait_while_waiter_count_balanced_witness :
    ([Event.assertion true, Event.atomicInc, Event.condEval false,
        Event.atomicDec] : List Event).count Event.atomicInc =
      ([Event.assertion true, Event.atomicInc, Event.condEval false,
        Event.atomicDec] : List Event).count Event.atomicDec ∧
    ((⟨false, false, false, true⟩ : ExecEnv).inCoroutine = false →
      ((⟨false, false, false, true⟩ : ExecEnv).ctxNonNull &&
        (⟨false, false, false, true⟩ : ExecEnv).inHomeThread) = false →
      ([Event.assertion true, Event.atomicInc, Event.condEval false,
        Event.atomicDec] : List Event).count Event.atomicInc = 1 ∧
      ([Event.assertion true, Event.atomicInc, Event.condEval false,
        Event.atomicDec] : List Event).count Event.atomicDec = 1) ∧
    ((⟨false, false, false, true⟩ : ExecEnv).inCoroutine = true →
      ([Event.assertion true, Event.atomicInc, Event.condEval false,
        Event.atomicDec] : List Event).count Event.atomicInc =
        ([Event.assertion true, Event.atomicInc, Event.condEval false,
          Event.atomicDec] : List Event).count Event.coQueueWait ∧
      ([Event.assertion true, Event.atomicInc, Event.condEval false,
        Event.atomicDec] : List Event).count Event.atomicDec =
        ([Event.assertion true, Event.atomicInc, Event.condEval false,
          Event.atomicDec] : List Event).count Event.coQueueWait) :=
  aio_wait_while_waiter_count_balanced ⟨false, false, false, true⟩
    (fun _ => false) 1 false _ (by decide)

/-- Modelled from the spec: the body of aio_wait_kick (declared in
include/block/aio-wait.h) is not among the sources under analysis.  Per the
kick / notify contract of the spec, the coordinator state pairs the queue of
parked cooperative tasks (the wait_queue, in FIFO order, tasks modelled by
identifiers) with the set of tasks made runnable again. -/
structure KickState where
  wait_queue : List Nat
  runnable : List Nat
deriving DecidableEq, Repr

/-- Modelled from the spec: aio_wait_kick resumes every cooperative task
currently on the wait_queue (broadcast, not single wakeup): all parked tasks
move, in order, to the runnable set and the queue empties. -/
def aio_wait_kick (s : KickState) : KickState :=
  { wait_queue := [], runnable := s.runnable ++ s.wait_queue }

/-- C7: a single aio_wait_kick call resumes every cooperative task parked on
the wait_queue (broadcast): the queue empties and all parked tasks become
runnable; a kick with no parked task is a safe no-op; and each resumed task
independently re-evaluates its condition, since in the coroutine path of
AIO_WAIT_WHILE every return from qemu_co_queue_wait is followed by the
atomic decrement and then another evaluation of the condition. -/
theorem aio_wait_kick_broadcast
    (s : KickState) (cond : Nat → Bool) (fuel : Nat) (tr : List Event)
    (pre post : List Event)
    (hloop : coroutineLoop cond 0 fuel = some tr)
    (hsplit : tr = pre ++ Event.coQueueWait :: post) :
    (aio_wait_kick s).wait_queue = [] ∧
    (aio_wait_kick s).runnable = s.runnable ++ s.wait_queue ∧
    (∀ t ∈ s.wait_queue, t ∈ (aio_wait_kick s).runnable) ∧
    (s.wait_queue = [] → aio_wait_kick s = s) ∧
    ∃ v post2, post = Event.atomicDec :: Event.condEval v :: post2 := by
  refine ⟨rfl, rfl, ?_, ?_, ?_⟩
  · intro t ht
    simp [aio_wait_kick, ht]
  · intro hq
    obtain ⟨q, r⟩ := s
    simp only at hq
    subst hq
    simp [aio_wait_kick]
  · obtain ⟨n, hn⟩ := coroutineLoop_eq_coTrace cond fuel 0 tr hloop
    rw [hn] at hsplit
    exact coTrace_coQueueWait_split n pre post hsplit

/-- Witness for C7: a kick with two parked tasks, against a concrete
coroutine-path execution that suspends once. -/
theorem aio_wait_kick_broadcast_witness :
    (aio_wait_kick ⟨[1, 2], [0]⟩).wait_queue = [] ∧
    (aio_wait_kick ⟨[1, 2], [0]⟩).runnable = [0, 1, 2] ∧
    (∀ t ∈ ([1, 2] : List Nat),
      t ∈ (aio_wait_kick ⟨[1, 2], [0]⟩).runnable) ∧
    (([1, 2] : List Nat) = [] → aio_wait_kick ⟨[1, 2], [0]⟩ = ⟨[1, 2], [0]⟩) ∧
    ∃ v post2, ([Event.atomicDec, Event.condEval false] : List Event) =
      Event.atomicDec :: Event.condEval v :: post2 :=
  aio_wait_kick_broadcast ⟨[1, 2], [0]⟩ (fun k => decide (k = 0)) 3
    [Event.condEval true, Event.atomicInc, Event.coQueueWait,
      Event.atomicDec, Event.condEval false]
    [Event.condEval true, Event.atomicInc]
    [Event.atomicDec, Event.condEval false] (by decide) rfl

/-- Modelled from the spec: the body of aio_wait_bh_oneshot (declared in
include/block/aio-wait.h) is not among the sources under analysis.  Per the
DeferredOneShot contract of the spec, the target event loop context is
modelled as the FIFO queue of deferred one-shot callbacks scheduled onto it
(callbacks modelled by identifiers) together with the list of callbacks it
has executed, in execution order. -/
structure BHCtx where
  pending : List Nat
  executed : List Nat
deriving DecidableEq, Repr

/-- Modelled from the spec: schedule a one-shot deferred callback onto the
target context (appended to its FIFO of pending callbacks). -/
def aio_bh_schedule_oneshot (ctx : BHCtx) (cb : Nat) : BHCtx :=
  { ctx with pending := ctx.pending ++ [cb] }

/-- Modelled from the spec: one event-loop iteration runs the next pending
deferred callback of the context, if any. -/
def bh_poll (ctx : BHCtx) : BHCtx :=
  match ctx.pending with
  | [] => ctx
  | c :: rest => { pending := rest, executed := ctx.executed ++ [c] }

/-- Modelled from the spec: the wait loop of aio_wait_bh_oneshot: while the
scheduled callback has not yet run, run one event-loop iteration. -/
def bh_wait_done (cb : Nat) : BHCtx → Nat → Option BHCtx
  | ctx, 0 => if cb ∈ ctx.executed then some ctx else none
  | ctx, fuel + 1 =>
    if cb ∈ ctx.executed then some ctx
    else bh_wait_done cb (bh_poll ctx) fuel

/-- Modelled from the spec: aio_wait_bh_oneshot schedules the callback onto
the target context and waits until it has run. -/
def aio_wait_bh_oneshot (ctx : BHCtx) (cb : Nat) (fuel : Nat) :
    Option BHCtx :=
  bh_wait_done cb (aio_bh_schedule_oneshot ctx cb) fuel

/-- N back-to-back aio_wait_bh_oneshot calls against one target context. -/
def aio_wait_bh_oneshot_seq (ctx : BHCtx) (cbs : List Nat) (fuel : Nat) :
    Option BHCtx :=
  match cbs with
  | [] => some ctx
  | c :: rest =>
    match aio_wait_bh_oneshot ctx c fuel with
    | none => none
    | some ctx2 => aio_wait_bh_oneshot_seq ctx2 rest fuel

lemma bh_wait_done_of_mem (cb : Nat) (ctx : BHCtx) (fuel : Nat)
    (h : cb ∈ ctx.executed) : bh_wait_done cb ctx fuel = some ctx := by
  cases fuel <;> simp [bh_wait_done, h]

lemma aio_wait_bh_oneshot_runs (ctx : BHCtx) (cb fuel : Nat)
    (hp : ctx.pending = []) (hfresh : cb ∉ ctx.executed) (hf : 1 ≤ fuel) :
    aio_wait_bh_oneshot ctx cb fuel =
      some ⟨[], ctx.executed ++ [cb]⟩ := by
  obtain ⟨p, ex⟩ := ctx
  simp only at hp hfresh
  subst hp
  match fuel with
  | 0 => omega
  | f + 1 =>
    show bh_wait_done cb (aio_bh_schedule_oneshot ⟨[], ex⟩ cb) (f + 1) = _
    have hsched : aio_bh_schedule_oneshot ⟨[], ex⟩ cb = ⟨[cb], ex⟩ := by
      simp [aio_bh_schedule_oneshot]
    rw [hsched]
    show (if cb ∈ ex then some (⟨[cb], ex⟩ : BHCtx)
      else bh_wait_done cb (bh_poll ⟨[cb], ex⟩) f) = _
    rw [if_neg hfresh]
    have hpoll : bh_poll ⟨[cb], ex⟩ = ⟨[], ex ++ [cb]⟩ := rfl
    rw [hpoll]
    exact bh_wait_done_of_mem cb ⟨[], ex ++ [cb]⟩ f (by simp)

/-- C8: under its precondition, aio_wait_bh_oneshot runs the scheduled
callback exactly once, on the target context, before returning; N
back-to-back calls against one target context execute their callbacks N
times, in submission order: the context ends having executed exactly the
submitted callbacks appended in order, each exactly once. -/
theorem aio_wait_bh_oneshot_exactly_once_in_order
    (ctx : BHCtx) (cbs : List Nat) (fuel : Nat)
    (hp : ctx.pending = []) (hnd : cbs.Nodup)
    (hfresh : ∀ c ∈ cbs, c ∉ ctx.executed) (hf : 1 ≤ fuel) :
    aio_wait_bh_oneshot_seq ctx cbs fuel =
      some ⟨[], ctx.executed ++ cbs⟩ ∧
    ∀ c ∈ cbs, (ctx.executed ++ cbs).count c = 1 := by
  constructor
  · induction cbs generalizing ctx with
    | nil =>
      obtain ⟨p, ex⟩ := ctx
      simp only at hp
      subst hp
      simp [aio_wait_bh_oneshot_seq]
    | cons c rest ih =>
      have hc : c ∉ ctx.executed := hfresh c (by simp)
      rw [aio_wait_bh_oneshot_seq,
        aio_wait_bh_oneshot_runs ctx c fuel hp hc hf]
      have hrest :=
        ih (⟨[], ctx.executed ++ [c]⟩ : BHCtx) rfl
          (List.nodup_cons.mp hnd).2 (by
            intro d hd
            simp only [List.mem_append, List.mem_singleton]
            rintro (hd2 | hd2)
            · exact hfresh d (by simp [hd]) hd2
            · subst hd2
              exact (List.nodup_cons.mp hnd).1 hd)
      show aio_wait_bh_oneshot_seq (⟨[], ctx.executed ++ [c]⟩ : BHCtx)
        rest fuel = some ⟨[], ctx.executed ++ c :: rest⟩
      rw [hrest]
      simp
  · intro c hc
    rw [List.count_append,
      List.count_eq_zero.mpr (hfresh c hc),
      List.count_eq_one_of_mem hnd hc]

/-- Witness for C8: two back-to-back calls against an idle context. -/
theorem aio_wait_bh_oneshot_exactly_once_in_order_witness :
    aio_wait_bh_oneshot_seq ⟨[], []⟩ [5, 7] 1 = some ⟨[], [5, 7]⟩ ∧
    ∀ c ∈ ([5, 7] : List Nat), (([] : List Nat) ++ [5, 7]).count c = 1 :=
  aio_wait_bh_oneshot_exactly_once_in_order ⟨[], []⟩ [5, 7] 1 rfl
    (by decide) (by decide) (by decide)

end QemuAioWait

namespace VirtioScsiTest

/-- VIRTIO_SCSI_CDB_SIZE of the Linux virtio_scsi header included by the
test (32). -/
def VIRTIO_SCSI_CDB_SIZE : Int := 32

/-- scsi_cdb_length of the virtio-scsi qtest: switch on the group code
buf[0] >> 5 of the first byte of the CDB buffer.  The buffer is a function
from byte index to byte value; the uint8_t read buf[0] is buf 0 % 256. -/
def scsi_cdb_length (buf : Nat → Nat) : Int :=
  match (buf 0 % 256) >>> 5 with
  | 0 => 6
  | 1 => 10
  | 2 => 10
  | 4 => 16
  | 5 => 12
  | _ => VIRTIO_SCSI_CDB_SIZE

/-- C10: scsi_cdb_length is total in the first byte of the buffer: 6 for
group code 0, 10 for groups 1 and 2, 16 for group 4, 12 for group 5, and
VIRTIO_SCSI_CDB_SIZE for groups 3, 6 and 7; the result is always one of
6, 10, 12, 16, VIRTIO_SCSI_CDB_SIZE, and no byte other than the first
affects it. -/
theorem scsi_cdb_length_by_group (buf : Nat → Nat) :
    ((buf 0 % 256) >>> 5 = 0 → scsi_cdb_length buf = 6) ∧
    ((buf 0 % 256) >>> 5 = 1 ∨ (buf 0 % 256) >>> 5 = 2 →
      scsi_cdb_length buf = 10) ∧
    ((buf 0 % 256) >>> 5 = 4 → scsi_cdb_length buf = 16) ∧
    ((buf 0 % 256) >>> 5 = 5 → scsi_cdb_length buf = 12) ∧
    ((buf 0 % 256) >>> 5 = 3 ∨ (buf 0 % 256) >>> 5 = 6 ∨
        (buf 0 % 256) >>> 5 = 7 →
      scsi_cdb_length buf = VIRTIO_SCSI_CDB_SIZE) ∧
    scsi_cdb_length buf ∈
      ([6, 10, 12, 16, VIRTIO_SCSI_CDB_SIZE] : List Int) ∧
    ∀ buf2 : Nat → Nat, buf2 0 = buf 0 →
      scsi_cdb_length buf2 = scsi_cdb_length buf := by
  refine ⟨?_, ?_, ?_, ?_, ?_, ?_, ?_⟩
  · intro h
    unfold scsi_cdb_length
    split <;> first | rfl | omega | simp_all
  · rintro (h | h) <;>
      · unfold scsi_cdb_length
        split <;> first | rfl | omega | simp_all
  · intro h
    unfold scsi_cdb_length
    split <;> first | rfl | omega | simp_all
  · intro h
    unfold scsi_cdb_length
    split <;> first | rfl | omega | simp_all
  · rintro (h | h | h) <;>
      · unfold scsi_cdb_length
        split <;> first | rfl | omega
  · unfold scsi_cdb_length
    split <;> decide
  · intro buf2 h2
    unfold scsi_cdb_length
    rw [h2]

/-- Witness for C10 at the concrete buffer whose first byte is 0xA8
(group 5, READ(12)): the length is 12. -/
theorem scsi_cdb_length_by_group_witness :
    (((fun i => if i = 0 then 168 else 0) : Nat → Nat) 0 % 256) >>> 5 = 5 ∧
    scsi_cdb_length (fun i => if i = 0 then 168 else 0) = 12 :=
  ⟨by decide,
    (scsi_cdb_length_by_group (fun i => if i = 0 then 168 else 0)).2.2.2.1
      (by decide)⟩

end VirtioScsiTest
